import Mathlib

/-!
# Verification of the trinity-wallet input-selection core

Shallow embedding of `src/shared/schema/index.js` (input selection:
`prepareInputs`, `sortInputsByOptimalValue`, `subsetSumWithLimit`, `getInputs`)
and of the node-sync check exercised by
`src/shared/__tests__/libs/iota/extendedApi.spec.js`.

The analysed file concatenates two revisions of the same module.  The first
revision takes a `maxInputs` parameter (fallback guard `maxInputs > 0 &&
size(selected) > maxInputs`, unlimited when `0`); the second takes a `limit`
parameter which may be `null` (guard `isNumber(limit) && size(selected) >
limit`) and rejects `limit === 0` outright.  Both are embedded:
`prepareInputs` models the first revision, `prepareInputsV2` the second.

JavaScript numbers are modelled as `Nat` (balances, thresholds are
non-negative integers); differences that may go negative use `Int`.
Recursion of the JavaScript functions is modelled with an explicit fuel
argument; the wrappers supply fuel that provably dominates the recursion
depth of the source functions.  Thrown errors and rejected promises are
modelled with `Except Err`; the two spots where the JavaScript would raise a
`TypeError` (reading `balance` of `undefined` after `head` of an empty list,
and destructuring an `undefined` result of the subset-sum search) get their
own error values so that their unreachability can be stated.
-/

/-- An input as consumed by the selector: the projection of an address entry
to the fields the selection logic reads (`address` and `balance`).  Balances
are the non-negative integer token amounts of the schema. -/
structure Input where
  address : String
  balance : Nat
deriving DecidableEq

/-- The error taxonomy of the module: the `Errors.*` constants thrown by
`prepareInputs` / `getInputs`, the `Node not synced` rejection, and two
markers for the spots where the JavaScript would crash with a `TypeError`. -/
inductive Err where
  | insufficientBalance
  | inputsThresholdCannotBeZero
  | inputsLimitCannotBeZero
  | invalidMaxInputsProvided
  | somethingWentWrongDuringInputSelection
  | cannotFindInputsWithProvidedLimit
  | incomingTransfers
  | addressHasPendingTransfers
  | fundsAtSpentAddresses
  | nodeNotSynced
  | typeErrorHeadUndefined
  | typeErrorDestructuring
deriving DecidableEq

/-- Result shape of `prepareInputs`: the selected inputs and their total. -/
structure PrepareResult where
  inputs : List Input
  balance : Nat
deriving DecidableEq

/-- `reduce(inputs, (acc, input) => acc + input.balance, 0)`. -/
def sumBalances (l : List Input) : Nat :=
  l.foldl (fun acc i => acc + i.balance) 0

/-- Modelled from the spec: `transformAddressDataToInputs` lives in
`./addresses`, which is not among the analysed sources.  Per the data model
an `Input` is the projection of an address entry to
`{address, balance, security, keyIndex}`; the selection logic reads only
`address` and `balance`, so address data is modelled directly as the
projected inputs and the transformation is the identity on that data. -/
def transformAddressDataToInputs (addressData : List Input) : List Input :=
  addressData

/-- `differenceBy(inputs, selected, 'address')`: the inputs whose address
does not occur among the selected ones, in pool order. -/
def differenceByAddress (inputs selected : List Input) : List Input :=
  inputs.filter (fun i => !(selected.any (fun s => s.address == i.address)))

/-- Sort key of `sortInputsByOptimalValue`: `Math.abs(diff - input.balance)`. -/
def optimalKey (diff : Int) (i : Input) : Nat :=
  (diff - (i.balance : Int)).natAbs

/-- One insertion step of a stable insertion sort by `optimalKey`: the new
element goes in front of the first element whose key is not smaller, so an
element earlier in the pool stays in front of later elements with an equal
key. -/
def insertByOptimalValue (diff : Int) (x : Input) : List Input → List Input
  | [] => [x]
  | y :: ys =>
    if optimalKey diff y < optimalKey diff x then y :: insertByOptimalValue diff x ys
    else x :: y :: ys

/-- `inputs.slice().sort((a, b) => Math.abs(diff - a.balance) - Math.abs(diff - b.balance))`.
`Array.prototype.sort` is a stable sort (ES2019), and a stable sort by a key
is unique as a function, so it is modelled by a stable insertion sort. -/
def sortInputsByOptimalValue (inputs : List Input) (diff : Int) : List Input :=
  inputs.foldr (insertByOptimalValue diff) []

/-- `uniqBy(inputs, 'balance')` keeps the first input carrying each balance
value, in pool order; `seen` accumulates the balances already kept. -/
def uniqByBalanceAux (seen : List Nat) : List Input → List Input
  | [] => []
  | x :: xs =>
    if seen.contains x.balance then uniqByBalanceAux seen xs
    else x :: uniqByBalanceAux (seen ++ [x.balance]) xs

/-- `uniqBy(inputs, 'balance')`. -/
def uniqByBalance (l : List Input) : List Input :=
  uniqByBalanceAux [] l

/-- `minBy(exceeded, size)`: the first combination of minimal length,
`none` on an empty list (lodash returns `undefined` there). -/
def minBySize (l : List (List Nat)) : Option (List Nat) :=
  l.foldl
    (fun acc x =>
      match acc with
      | none => some x
      | some m => if x.length < m.length then some x else some m)
    none

/-- The mutable state closed over by `subsetSumWithLimit`: the two found
flags, the two result accumulators, the global call counter and the size of
the top-level balance list. -/
structure SolverState where
  hasFoundAnExactMatch : Bool
  hasFoundNoMatches : Bool
  exactMatches : List (List Nat)
  exceeded : List (List Nat)
  callTimes : Nat
  sizeOfBalances : Nat
deriving DecidableEq

/-- The record `{ exactMatches, exceeded }` returned by the search. -/
structure SubsetSumResult where
  exactMatches : List (List Nat)
  exceeded : List (List Nat)
deriving DecidableEq

/-- State before the first call of `calculate`. -/
def initSolverState : SolverState :=
  { hasFoundAnExactMatch := false
    hasFoundNoMatches := false
    exactMatches := []
    exceeded := []
    callTimes := 0
    sizeOfBalances := 0 }

/-- One iteration of the `each` loop inside `calculate`, at element
`pair.2` with index `pair.1`: break when an exact match is known, set
`hasFoundNoMatches` on the last top-level index, then recurse on the slice
after the element.  The `each` loop of the source discards the return value
of the nested call, so only the state component is kept.  The test
`index === sizeOfBalances - 1` of the source is rendered as
`index + 1 = sizeOfBalances`, which agrees with the JavaScript comparison
also when `sizeOfBalances` is `0` (there `index === -1` is false). -/
def calcStep (recurse : SolverState → List Nat → List Nat → SolverState × Option SubsetSumResult)
    (balances partialList : List Nat) (acc : SolverState) (pair : Nat × Nat) : SolverState :=
  if acc.hasFoundAnExactMatch then acc
  else
    let acc1 :=
      if pair.1 + 1 = acc.sizeOfBalances then { acc with hasFoundNoMatches := true }
      else acc
    (recurse acc1 (balances.drop (pair.1 + 1)) (partialList ++ [pair.2])).1

/-- `reduce(partial, (acc, value) => acc + value, 0)`. -/
def partialSum (partialList : List Nat) : Nat :=
  partialList.foldl (fun acc v => acc + v) 0

/-- The straight-line prefix of a `calculate` call: bump the call counter,
latch the top-level balance-list size on the first call, and record the
partial combination as an exact match or as an exceeding combination when
its sum warrants it and its size is within the limit. -/
def calcEntry (limit : Nat) (st : SolverState) (balances partialList : List Nat)
    (threshold : Nat) : SolverState :=
  let stA := { st with callTimes := st.callTimes + 1 }
  let stB := if stA.callTimes = 1 then { stA with sizeOfBalances := balances.length } else stA
  let s := partialSum partialList
  let stC :=
    if s = threshold ∧ partialList.length ≤ limit then
      { stB with
        exactMatches := stB.exactMatches ++ [partialList]
        hasFoundAnExactMatch := true }
    else stB
  if threshold < s ∧ partialList.length ≤ limit then
    { stC with exceeded := stC.exceeded ++ [partialList] }
  else stC

/-- The inner `calculate` of `subsetSumWithLimit`, with the closed-over
mutable state threaded explicitly and recursion depth bounded by fuel (each
nested call receives a strictly shorter slice, so fuel
`balances.length + 1` at the top is never exhausted; the out-of-fuel case
returns the state unchanged).  The pair holds the state after the call and
the call's return value (`none` models `undefined`). -/
def calculate (limit maxCalls : Nat) :
    Nat → SolverState → List Nat → Nat → List Nat → SolverState × Option SubsetSumResult
  | 0, st, _, _, _ => (st, none)
  | fuel + 1, st, balances, threshold, partialList =>
    let stD := calcEntry limit st balances partialList threshold
    if threshold ≤ partialSum partialList then (stD, none)
    else
      let stE :=
        balances.enum.foldl
          (calcStep (fun acc1 rest newPartial => calculate limit maxCalls fuel acc1 rest threshold newPartial)
            balances partialList)
          stD
      if stE.hasFoundAnExactMatch ∨ stE.hasFoundNoMatches ∨ stE.callTimes = maxCalls then
        (stE, some ⟨stE.exactMatches, stE.exceeded⟩)
      else (stE, none)

/-- `subsetSumWithLimit(limit, MAX_CALL_TIMES)(balances, threshold)`:
runs `calculate` on fresh state; `none` models the source returning
`undefined` from the outermost call. -/
def subsetSumWithLimit (limit maxCalls : Nat) (balances : List Nat) (threshold : Nat) :
    Option SubsetSumResult :=
  (calculate limit maxCalls (balances.length + 1) initSolverState balances threshold []).2

/-- The `while (availableBalance < threshold)` loop of `prepareInputs`:
sort the not-yet-selected inputs by distance to the remaining deficit, take
the head, add it.  `none` at an empty candidate list models the `TypeError`
the source would raise on `head(sortedInputs).balance`; the fuel-exhausted
case returns the same `none` and is unreachable for the fuel supplied by
`prepareInputs`. -/
def greedyLoop (inputs : List Input) (threshold : Nat) :
    Nat → List Input → Nat → Option (List Input × Nat)
  | 0, selected, bal => if bal < threshold then none else some (selected, bal)
  | fuel + 1, selected, bal =>
    if bal < threshold then
      match sortInputsByOptimalValue (differenceByAddress inputs selected)
          ((threshold : Int) - (bal : Int)) with
      | [] => none
      | input :: _ =>
        greedyLoop inputs threshold fuel (selected ++ [input]) (bal + input.balance)
    else some (selected, bal)

/-- The fallback of `prepareInputs` when the greedy selection exceeds the
limit: subset-sum over the balances of `uniqBy(inputs, 'balance')`, then the
first exact match, else the first minimal-size exceeded combination, else
`CANNOT_FIND_INPUTS_WITH_PROVIDED_LIMIT`.  The `typeErrorDestructuring`
value models the source destructuring an `undefined` search result. -/
def prepareInputsFromSolver (inputsWithUniqueBalances : List Input) (threshold lim : Nat) :
    Option SubsetSumResult → Except Err PrepareResult
  | none => .error .typeErrorDestructuring
  | some r =>
    match r.exactMatches with
    | firstMatch :: _ =>
      let inputsWithExactMatch :=
        inputsWithUniqueBalances.filter (fun i => firstMatch.contains i.balance)
      let balance := sumBalances inputsWithExactMatch
      if balance ≠ threshold then .error .somethingWentWrongDuringInputSelection
      else .ok ⟨inputsWithExactMatch, balance⟩
    | [] =>
      match minBySize r.exceeded with
      | none => .error .cannotFindInputsWithProvidedLimit
      | some inputsWithMinSize =>
        let finalInputs :=
          inputsWithUniqueBalances.filter (fun i => inputsWithMinSize.contains i.balance)
        let balance := sumBalances finalInputs
        if balance ≤ threshold ∨ lim < inputsWithMinSize.length then
          .error .somethingWentWrongDuringInputSelection
        else .ok ⟨finalInputs, balance⟩

/-- The fallback run over the deduplicated pool (see
`prepareInputsFromSolver` for the handling of the search result). -/
def prepareInputsFallback (inputs : List Input) (threshold lim : Nat) :
    Except Err PrepareResult :=
  let inputsWithUniqueBalances := uniqByBalance inputs
  prepareInputsFromSolver inputsWithUniqueBalances threshold lim
    (subsetSumWithLimit lim 100000
      (inputsWithUniqueBalances.map (fun i => i.balance)) threshold)

/-- First revision of `prepareInputs` (`maxInputs` parameter).  The
`isNumber(maxInputs)` guard cannot fire in this embedding because
`maxInputs : Nat` is always a number. -/
def prepareInputs (addressData : List Input) (threshold maxInputs : Nat) :
    Except Err PrepareResult :=
  if sumBalances addressData < threshold then .error .insufficientBalance
  else if threshold = 0 then .error .inputsThresholdCannotBeZero
  else
    let inputs :=
      (transformAddressDataToInputs addressData).filter (fun i => decide (0 < i.balance))
    match greedyLoop inputs threshold (inputs.length + 1) [] 0 with
    | none => .error .typeErrorHeadUndefined
    | some (selected, availableBalance) =>
      if 0 < maxInputs ∧ maxInputs < selected.length then
        prepareInputsFallback inputs threshold maxInputs
      else .ok ⟨selected, availableBalance⟩

/-- Second revision of `prepareInputs` (`limit` parameter, possibly `null`,
modelled as `Option Nat`): rejects `limit === 0`, and runs the fallback only
when `isNumber(limit)` holds and the greedy selection is larger. -/
def prepareInputsV2 (addressData : List Input) (threshold : Nat) (lim : Option Nat) :
    Except Err PrepareResult :=
  if sumBalances addressData < threshold then .error .insufficientBalance
  else if threshold = 0 then .error .inputsThresholdCannotBeZero
  else if lim = some 0 then .error .inputsLimitCannotBeZero
  else
    let inputs :=
      (transformAddressDataToInputs addressData).filter (fun i => decide (0 < i.balance))
    match greedyLoop inputs threshold (inputs.length + 1) [] 0 with
    | none => .error .typeErrorHeadUndefined
    | some (selected, availableBalance) =>
      match lim with
      | some l =>
        if l < selected.length then prepareInputsFallback inputs threshold l
        else .ok ⟨selected, availableBalance⟩
      | none => .ok ⟨selected, availableBalance⟩

/-- First revision of `getInputs`.  The three filter stages
(`omitAddressDataWithIncomingTransactions` after
`filterNonFundedPendingTransactions`,
`filterAddressDataWithPendingOutgoingTransactions`, and
`pickUnspentAddressData`) live in `./addresses` / `./transfers`, which are
not among the analysed sources; with the transaction history fixed each is a
function from an address pool to an address pool, so they are taken as
function parameters.  The skeleton (stage order, the re-summation after
each stage, and the stage-specific errors) is the analysed source. -/
def getInputs (omitIncoming filterOutgoing pickUnspent : List Input → List Input)
    (addressData : List Input) (threshold maxInputs : Nat) : Except Err PrepareResult :=
  if sumBalances addressData < threshold then .error .insufficientBalance
  else
    let afterIncoming := omitIncoming addressData
    if sumBalances afterIncoming < threshold then .error .incomingTransfers
    else
      let afterOutgoing := filterOutgoing afterIncoming
      if sumBalances afterOutgoing < threshold then .error .addressHasPendingTransfers
      else
        let unspent := pickUnspent afterOutgoing
        if sumBalances unspent < threshold then .error .fundsAtSpentAddresses
        else prepareInputs unspent threshold maxInputs

/-- Second revision of `getInputs`: same stage skeleton, with a nullable
inputs limit passed through to `prepareInputsV2`. -/
def getInputsV2 (omitIncoming filterOutgoing pickUnspent : List Input → List Input)
    (addressData : List Input) (threshold : Nat) (maxInputs : Option Nat) :
    Except Err PrepareResult :=
  if sumBalances addressData < threshold then .error .insufficientBalance
  else
    let afterIncoming := omitIncoming addressData
    if sumBalances afterIncoming < threshold then .error .incomingTransfers
    else
      let afterOutgoing := filterOutgoing afterIncoming
      if sumBalances afterOutgoing < threshold then .error .addressHasPendingTransfers
      else
        let unspent := pickUnspent afterOutgoing
        if sumBalances unspent < threshold then .error .fundsAtSpentAddresses
        else prepareInputsV2 unspent threshold maxInputs

/-- Left-biased minimum by key: keeps the current element unless the new one
is strictly better. -/
def pickBetter (k : Input → Nat) (m i : Input) : Input :=
  if k i < k m then i else m


/-- First element of the list minimizing `k`, earlier elements winning ties
(`leftmost argmin`).  This is the pick the specification's greedy step
describes: "the one whose balance is numerically closest to the remaining
deficit, ties broken by pool order". -/
def leftmostMinBy (k : Input → Nat) (l : List Input) : Option Input :=
  l.foldl
    (fun acc i =>
      match acc with
      | none => some i
      | some m => some (pickBetter k m i))
    none

/-- Greedy selection following the specification's words (refinement target
for the source's sort-then-head loop): repeatedly pick, from the inputs not
yet selected, the first one minimizing the absolute difference to the
remaining deficit, add it, update the remaining deficit, and stop as soon as
the accumulated balance reaches the threshold. -/
def specGreedyLoop (inputs : List Input) (threshold : Nat) :
    Nat → List Input → Nat → Option (List Input × Nat)
  | 0, selected, bal => if bal < threshold then none else some (selected, bal)
  | fuel + 1, selected, bal =>
    if bal < threshold then
      match leftmostMinBy (optimalKey ((threshold : Int) - (bal : Int)))
          (differenceByAddress inputs selected) with
      | none => none
      | some input =>
        specGreedyLoop inputs threshold fuel (selected ++ [input]) (bal + input.balance)
    else some (selected, bal)

/-- The all-9s sentinel hash (`EMPTY_HASH_TRYTES`). -/
def EMPTY_HASH_TRYTES : String :=
  String.mk (List.replicate 81 (Char.ofNat 57))

/-- The fields of a `getNodeInfo` response the sync check reads.  The
milestone indices are optional because the sync-check tests answer
`getNodeInfo` without them (an absent JavaScript field is `undefined`, and
`undefined - 1 === x` is false for every `x`). -/
structure NodeInfo where
  latestMilestone : String
  latestSolidSubtangleMilestone : String
  latestMilestoneIndex : Option Int
  latestSolidSubtangleMilestoneIndex : Option Int
deriving DecidableEq

/-- `latestMilestoneIndex - 1 === latestSolidSubtangleMilestoneIndex`,
false whenever either index is absent. -/
def indexDiffIsOne (info : NodeInfo) : Bool :=
  match info.latestMilestoneIndex, info.latestSolidSubtangleMilestoneIndex with
  | some a, some b => a - 1 == b
  | _, _ => false

/-- Modelled from the spec: `isWithinMinutes` (libs/date) is not among the
analysed sources; per the specification the node is fresh when
`now - timestamp < 5 minutes`.  Times are in milliseconds. -/
def isWithinMinutes (timestampMillis : Int) (minutes : Int) (nowMillis : Int) : Bool :=
  nowMillis - timestampMillis < minutes * 60 * 1000

/-- Modelled from the spec: `isNodeSynced` (libs/iota/extendedApi) is not
among the analysed sources; only its test suite is.  The specification's
component design and its testable properties disagree about a node whose two
milestone hashes differ while the index difference is exactly 1 (the design
text says "fail", the testable property and the in-repo test suite say
"resolve by timestamp"); the in-repo test suite is the authority, and the
unique guard consistent with all four of its scenarios is:
proceed to the timestamp check when (the two milestone hashes agree, or
`latestMilestoneIndex - 1` equals `latestSolidSubtangleMilestoneIndex`) and
`latestMilestone` is not the all-9s sentinel; otherwise reject with
`Node not synced`.  The sampled transaction's timestamp is in seconds and is
scaled to milliseconds before the freshness comparison. -/
def isNodeSynced (info : NodeInfo) (txTimestampSecs : Int) (nowMillis : Int) :
    Except Err Bool :=
  if ((info.latestMilestone == info.latestSolidSubtangleMilestone) || indexDiffIsOne info)
      && (info.latestMilestone != EMPTY_HASH_TRYTES) then
    .ok (isWithinMinutes (txTimestampSecs * 1000) 5 nowMillis)
  else .error .nodeNotSynced

/-! ## Helper lemmas about the basic list operations -/

theorem sumBalances_from (l : List Input) (n : Nat) :
    l.foldl (fun acc i => acc + i.balance) n = n + sumBalances l := by
  induction l generalizing n with
  | nil => simp [sumBalances]
  | cons x xs ih =>
    simp only [sumBalances, List.foldl_cons, Nat.zero_add] at *
    rw [ih (n + x.balance), ih x.balance]
    omega

theorem sumBalances_cons (x : Input) (l : List Input) :
    sumBalances (x :: l) = x.balance + sumBalances l := by
  simp only [sumBalances, List.foldl_cons, Nat.zero_add]
  exact sumBalances_from l x.balance

theorem sumBalances_nil : sumBalances [] = 0 := rfl

theorem sumBalances_append (l₁ l₂ : List Input) :
    sumBalances (l₁ ++ l₂) = sumBalances l₁ + sumBalances l₂ := by
  induction l₁ with
  | nil => simp [sumBalances_nil, sumBalances]
  | cons x xs ih => simp [sumBalances_cons, ih]; omega

theorem sumBalances_filter_pos (l : List Input) :
    sumBalances (l.filter (fun i => decide (0 < i.balance))) = sumBalances l := by
  induction l with
  | nil => rfl
  | cons x xs ih =>
    by_cases h : 0 < x.balance
    · simp [List.filter_cons, h, sumBalances_cons, ih]
    · have hb : x.balance = 0 := by omega
      simp [List.filter_cons, h, sumBalances_cons, ih, hb]

/-- Partition of a balance sum along a boolean test. -/
theorem sumBalances_filter_partition (p : Input → Bool) (l : List Input) :
    sumBalances (l.filter p) + sumBalances (l.filter (fun i => !(p i))) = sumBalances l := by
  induction l with
  | nil => rfl
  | cons x xs ih =>
    by_cases h : p x = true
    · simp [List.filter_cons, h, sumBalances_cons, ← ih]; omega
    · have h2 : p x = false := by simpa using h
      simp [List.filter_cons, h2, sumBalances_cons, ← ih]; omega

theorem length_filter_partition (p : Input → Bool) (l : List Input) :
    (l.filter p).length + (l.filter (fun i => !(p i))).length = l.length := by
  induction l with
  | nil => rfl
  | cons x xs ih =>
    by_cases h : p x = true
    · simp [List.filter_cons, h, ← ih]; omega
    · have h2 : p x = false := by simpa using h
      simp [List.filter_cons, h2, ← ih]; omega

/-- In a list whose addresses are pairwise distinct, the entries sharing the
address of a member `x` are exactly `[x]`. -/
theorem filter_address_eq_singleton (l : List Input) (x : Input) (hx : x ∈ l)
    (hnd : (l.map (fun i => i.address)).Nodup) :
    l.filter (fun i => x.address == i.address) = [x] := by
  induction l with
  | nil => cases hx
  | cons y ys ih =>
    simp only [List.map_cons, List.nodup_cons] at hnd
    rcases List.mem_cons.mp hx with hxy | hxys
    · subst hxy
      have hys : ys.filter (fun i => x.address == i.address) = [] := by
        apply List.filter_eq_nil_iff.mpr
        intro a ha
        have hmem : a.address ∈ ys.map (fun i => i.address) := List.mem_map_of_mem _ ha
        intro hc
        have hxa : x.address = a.address := by simpa using hc
        exact hnd.1 (by rw [hxa]; exact hmem)
      simp [List.filter_cons, hys]
    · have hne : x.address ≠ y.address := by
        intro hc
        have : x.address ∈ ys.map (fun i => i.address) := List.mem_map_of_mem _ hxys
        rw [hc] at this
        exact hnd.1 this
      have : (x.address == y.address) = false := beq_eq_false_iff_ne.mpr hne
      simp [List.filter_cons, this, ih hxys hnd.2]

theorem uniqByBalanceAux_sublist (seen : List Nat) (l : List Input) :
    (uniqByBalanceAux seen l).Sublist l := by
  induction l generalizing seen with
  | nil => simp [uniqByBalanceAux]
  | cons x xs ih =>
    by_cases h : seen.contains x.balance
    · simp only [uniqByBalanceAux, h, if_pos]
      exact (ih seen).trans (List.sublist_cons_self x xs)
    · simp only [uniqByBalanceAux, h, if_neg, Bool.false_eq_true, not_false_iff]
      exact (ih (seen ++ [x.balance])).cons₂ x

theorem uniqByBalance_sublist (l : List Input) : (uniqByBalance l).Sublist l :=
  uniqByBalanceAux_sublist [] l

theorem uniqByBalance_ne_nil (x : Input) (xs : List Input) :
    uniqByBalance (x :: xs) ≠ [] := by
  simp [uniqByBalance, uniqByBalanceAux]

/-- Inserting into the stable sort is a permutation of consing. -/
theorem insertByOptimalValue_perm (diff : Int) (x : Input) (l : List Input) :
    (insertByOptimalValue diff x l).Perm (x :: l) := by
  induction l with
  | nil => simp [insertByOptimalValue]
  | cons y ys ih =>
    by_cases h : optimalKey diff y < optimalKey diff x
    · simp only [insertByOptimalValue, h, if_pos]
      exact (ih.cons y).trans (List.Perm.swap x y ys)
    · simp [insertByOptimalValue, h]

theorem sortInputsByOptimalValue_perm (l : List Input) (diff : Int) :
    (sortInputsByOptimalValue l diff).Perm l := by
  induction l with
  | nil => simp [sortInputsByOptimalValue]
  | cons x xs ih =>
    simp only [sortInputsByOptimalValue, List.foldr_cons] at *
    exact (insertByOptimalValue_perm diff x _).trans (ih.cons x)

theorem differenceByAddress_nil (inputs : List Input) :
    differenceByAddress inputs [] = inputs := by
  simp [differenceByAddress]

theorem differenceByAddress_append_one (inputs sel : List Input) (x : Input) :
    differenceByAddress inputs (sel ++ [x]) =
      (differenceByAddress inputs sel).filter (fun i => !(x.address == i.address)) := by
  simp only [differenceByAddress, List.filter_filter]
  apply List.filter_congr
  intro a _
  simp only [List.any_append, List.any_cons, List.any_nil, Bool.or_false]
  cases h1 : sel.any (fun s => s.address == a.address) <;>
    cases h2 : x.address == a.address <;> rfl

theorem differenceByAddress_sublist (inputs sel : List Input) :
    (differenceByAddress inputs sel).Sublist inputs :=
  List.filter_sublist inputs

/-- A member of the not-yet-selected pool is not yet selected. -/
theorem mem_differenceByAddress (inputs sel : List Input) (x : Input)
    (hx : x ∈ differenceByAddress inputs sel) :
    x ∈ inputs ∧ ∀ s ∈ sel, s.address ≠ x.address := by
  have := List.of_mem_filter hx
  refine ⟨List.mem_of_mem_filter hx, ?_⟩
  intro s hs hc
  simp only [Bool.not_eq_eq_eq_not, Bool.not_true, List.any_eq_false] at this
  have h2 := this s hs
  simp [hc] at h2

/-! ## Lemmas about the greedy loop -/

/-- When the greedy loop returns, the accumulated balance has reached the
threshold. -/
theorem greedyLoop_ok_ge (inputs : List Input) (threshold : Nat) :
    ∀ fuel sel bal s b, greedyLoop inputs threshold fuel sel bal = some (s, b) →
      threshold ≤ b := by
  intro fuel
  induction fuel with
  | zero =>
    intro sel bal s b h
    simp only [greedyLoop] at h
    split at h
    · exact absurd h (by simp)
    · simp only [Option.some.injEq, Prod.mk.injEq] at h
      omega
  | succ fuel ih =>
    intro sel bal s b h
    simp only [greedyLoop] at h
    split at h
    · split at h
      · exact absurd h (by simp)
      · exact ih _ _ _ _ h
    · simp only [Option.some.injEq, Prod.mk.injEq] at h
      omega

/-- Structural facts about a successful greedy run: address-distinctness of
the selection is preserved, and every selected input comes from the initial
selection or from the pool. -/
theorem greedyLoop_structure (inputs : List Input) (threshold : Nat) :
    ∀ fuel sel bal s b, greedyLoop inputs threshold fuel sel bal = some (s, b) →
      ((sel.map (fun i => i.address)).Nodup → (s.map (fun i => i.address)).Nodup) ∧
      (∀ x ∈ s, x ∈ sel ∨ x ∈ inputs) := by
  intro fuel
  induction fuel with
  | zero =>
    intro sel bal s b h
    simp only [greedyLoop] at h
    split at h
    · exact absurd h (by simp)
    · simp only [Option.some.injEq, Prod.mk.injEq] at h
      obtain ⟨rfl, -⟩ := h
      exact ⟨fun hn => hn, fun x hx => Or.inl hx⟩
  | succ fuel ih =>
    intro sel bal s b h
    simp only [greedyLoop] at h
    split at h
    · rename_i hbal
      split at h
      · exact absurd h (by simp)
      · rename_i input rest hsort
        have hmem_sorted : input ∈ sortInputsByOptimalValue
            (differenceByAddress inputs sel) ((threshold : Int) - (bal : Int)) := by
          rw [hsort]; exact List.mem_cons_self _ _
        have hmem_diff : input ∈ differenceByAddress inputs sel :=
          ((sortInputsByOptimalValue_perm _ _).mem_iff).mp hmem_sorted
        obtain ⟨hmem_inputs, hfresh⟩ := mem_differenceByAddress inputs sel input hmem_diff
        obtain ⟨ihnodup, ihmem⟩ := ih _ _ _ _ h
        constructor
        · intro hnd
          apply ihnodup
          simp only [List.map_append, List.map_cons, List.map_nil]
          rw [List.nodup_append]
          refine ⟨hnd, List.nodup_singleton _, ?_⟩
          intro a ha hb
          simp only [List.mem_singleton] at hb
          obtain ⟨y, hy, rfl⟩ := List.mem_map.mp ha
          exact hfresh y hy hb
        · intro x hx
          rcases ihmem x hx with hsel | hin
          · rcases List.mem_append.mp hsel with h1 | h2
            · exact Or.inl h1
            · simp only [List.mem_singleton] at h2
              subst h2
              exact Or.inr hmem_inputs
          · exact Or.inr hin
    · simp only [Option.some.injEq, Prod.mk.injEq] at h
      obtain ⟨rfl, -⟩ := h
      exact ⟨fun hn => hn, fun x hx => Or.inl hx⟩

/-- Totality of the greedy loop: with pairwise-distinct addresses, enough
fuel, and enough remaining balance, the loop reaches the threshold. -/
theorem greedyLoop_total (inputs : List Input) (threshold : Nat)
    (hnd : (inputs.map (fun i => i.address)).Nodup) :
    ∀ fuel sel bal, (differenceByAddress inputs sel).length ≤ fuel →
      threshold ≤ bal + sumBalances (differenceByAddress inputs sel) →
      ∃ s b, greedyLoop inputs threshold fuel sel bal = some (s, b) := by
  intro fuel
  induction fuel with
  | zero =>
    intro sel bal hlen hsum
    have hrem : differenceByAddress inputs sel = [] :=
      List.length_eq_zero.mp (Nat.le_zero.mp hlen)
    rw [hrem, sumBalances_nil] at hsum
    refine ⟨sel, bal, ?_⟩
    simp only [greedyLoop]
    rw [if_neg (by omega)]
  | succ fuel ih =>
    intro sel bal hlen hsum
    by_cases hbal : bal < threshold
    · set rem := differenceByAddress inputs sel with hrem_def
      have hrem_ne : rem ≠ [] := by
        intro hc
        rw [hc, sumBalances_nil] at hsum
        omega
      have hsort_ne : sortInputsByOptimalValue rem ((threshold : Int) - (bal : Int)) ≠ [] := by
        intro hc
        have hpnil : rem.Perm [] :=
          hc ▸ (sortInputsByOptimalValue_perm rem ((threshold : Int) - (bal : Int))).symm
        exact hrem_ne hpnil.eq_nil
      obtain ⟨input, rest, hsort⟩ := List.exists_cons_of_ne_nil hsort_ne
      have hmem_diff : input ∈ rem :=
        ((sortInputsByOptimalValue_perm rem _).mem_iff).mp (hsort ▸ List.mem_cons_self _ _)
      have hnd_rem : (rem.map (fun i => i.address)).Nodup :=
        List.Nodup.sublist ((differenceByAddress_sublist inputs sel).map _) hnd
      have hfilter_eq : rem.filter (fun i => input.address == i.address) = [input] :=
        filter_address_eq_singleton rem input hmem_diff hnd_rem
      have hrem_next : differenceByAddress inputs (sel ++ [input]) =
          rem.filter (fun i => !(input.address == i.address)) :=
        differenceByAddress_append_one inputs sel input
      have hsum_split := sumBalances_filter_partition
        (fun i => input.address == i.address) rem
      rw [hfilter_eq, sumBalances_cons, sumBalances_nil] at hsum_split
      have hlen_split := length_filter_partition
        (fun i => input.address == i.address) rem
      rw [hfilter_eq] at hlen_split
      simp only [List.length_cons, List.length_nil] at hlen_split
      obtain ⟨s, b, hrec⟩ := ih (sel ++ [input]) (bal + input.balance)
        (by rw [hrem_next]; omega)
        (by rw [hrem_next]; omega)
      refine ⟨s, b, ?_⟩
      simp only [greedyLoop]
      rw [if_pos hbal, ← hrem_def, hsort]
      exact hrec
    · refine ⟨sel, bal, ?_⟩
      simp only [greedyLoop]
      rw [if_neg hbal]

/-! ## Lemmas about the subset-sum search -/

theorem foldl_invariant {α β : Type} (P : α → Prop) (f : α → β → α)
    (hstep : ∀ a b, P a → P (f a b)) :
    ∀ (l : List β) (a : α), P a → P (l.foldl f a) := by
  intro l
  induction l with
  | nil => intro a ha; exact ha
  | cons x xs ih => intro a ha; exact ih (f a x) (hstep a x ha)

/-- How a call of the search may change the solver state: flags are only
ever set, the call counter only grows, and once at least one call has
happened the latched top-level size never changes. -/
def StateEvolves (st st2 : SolverState) : Prop :=
  (st.hasFoundAnExactMatch = true → st2.hasFoundAnExactMatch = true) ∧
  (st.hasFoundNoMatches = true → st2.hasFoundNoMatches = true) ∧
  st.callTimes ≤ st2.callTimes ∧
  (1 ≤ st.callTimes → st2.sizeOfBalances = st.sizeOfBalances)

theorem stateEvolves_refl (st : SolverState) : StateEvolves st st :=
  ⟨fun h => h, fun h => h, Nat.le_refl _, fun _ => rfl⟩

theorem stateEvolves_trans {a b c : SolverState}
    (h1 : StateEvolves a b) (h2 : StateEvolves b c) : StateEvolves a c := by
  obtain ⟨e1, n1, c1, s1⟩ := h1
  obtain ⟨e2, n2, c2, s2⟩ := h2
  exact ⟨fun h => e2 (e1 h), fun h => n2 (n1 h), Nat.le_trans c1 c2,
    fun h => (s2 (Nat.le_trans h c1)).trans (s1 h)⟩

theorem calcEntry_evolves (limit : Nat) (st : SolverState)
    (balances partialList : List Nat) (threshold : Nat) :
    StateEvolves st (calcEntry limit st balances partialList threshold) := by
  simp only [calcEntry]
  split <;> split <;> split <;> simp_all [StateEvolves]

theorem calcStep_evolves
    (recurse : SolverState → List Nat → List Nat → SolverState × Option SubsetSumResult)
    (balances partialList : List Nat)
    (hrec : ∀ st2 rest np, StateEvolves st2 (recurse st2 rest np).1)
    (acc : SolverState) (pair : Nat × Nat) :
    StateEvolves acc (calcStep recurse balances partialList acc pair) := by
  simp only [calcStep]
  by_cases h : acc.hasFoundAnExactMatch = true
  · rw [if_pos h]
    exact stateEvolves_refl acc
  · rw [if_neg h]
    by_cases h2 : pair.1 + 1 = acc.sizeOfBalances
    · rw [if_pos h2]
      refine stateEvolves_trans ?_ (hrec _ _ _)
      exact ⟨fun hh => hh, fun _ => rfl, Nat.le_refl _, fun _ => rfl⟩
    · rw [if_neg h2]
      exact hrec _ _ _

theorem calculate_evolves (limit maxCalls : Nat) :
    ∀ fuel st balances threshold partialList,
      StateEvolves st (calculate limit maxCalls fuel st balances threshold partialList).1 := by
  intro fuel
  induction fuel with
  | zero => intro st b t p; exact stateEvolves_refl st
  | succ fuel ih =>
    intro st b t p
    simp only [calculate]
    by_cases hs : t ≤ partialSum p
    · rw [if_pos hs]
      exact calcEntry_evolves limit st b p t
    · rw [if_neg hs]
      have hloop : StateEvolves st
          (b.enum.foldl
            (calcStep (fun acc1 rest newPartial => calculate limit maxCalls fuel acc1 rest t newPartial) b p)
            (calcEntry limit st b p t)) := by
        apply foldl_invariant (fun x => StateEvolves st x)
        · intro a pair ha
          exact stateEvolves_trans ha
            (calcStep_evolves _ b p (fun st2 rest np => ih st2 rest t np) a pair)
        · exact calcEntry_evolves limit st b p t
      split
      · exact hloop
      · exact hloop

theorem calcStep_congr
    (r₁ r₂ : SolverState → List Nat → List Nat → SolverState × Option SubsetSumResult)
    (balances partialList : List Nat)
    (hrec : ∀ st2 rest np, (r₁ st2 rest np).1 = (r₂ st2 rest np).1)
    (acc : SolverState) (pair : Nat × Nat) :
    calcStep r₁ balances partialList acc pair = calcStep r₂ balances partialList acc pair := by
  simp only [calcStep]
  by_cases h : acc.hasFoundAnExactMatch = true
  · rw [if_pos h, if_pos h]
  · rw [if_neg h, if_neg h]
    by_cases h2 : pair.1 + 1 = acc.sizeOfBalances
    · rw [if_pos h2]
      exact hrec _ _ _
    · rw [if_neg h2]
      exact hrec _ _ _

theorem fst_ite_pair {c₁ c₂ : Prop} [Decidable c₁] [Decidable c₂] (x : SolverState)
    (a b d e : Option SubsetSumResult) :
    (if c₁ then (x, a) else (x, b)).1 = (if c₂ then (x, d) else (x, e)).1 := by
  split <;> split <;> rfl

/-- The search state produced by `calculate` does not depend on `maxCalls`:
the call-count cap is consulted only when deciding whether to hand back the
result record at the end of a call, never to stop the recursion. -/
theorem calculate_fst_maxCalls_indep (limit m₁ m₂ : Nat) :
    ∀ fuel st balances threshold partialList,
      (calculate limit m₁ fuel st balances threshold partialList).1 =
      (calculate limit m₂ fuel st balances threshold partialList).1 := by
  intro fuel
  induction fuel with
  | zero => intro st b t p; rfl
  | succ fuel ih =>
    intro st b t p
    simp only [calculate]
    by_cases hs : t ≤ partialSum p
    · rw [if_pos hs, if_pos hs]
    · rw [if_neg hs, if_neg hs]
      have hfold :
          b.enum.foldl
            (calcStep (fun acc1 rest newPartial => calculate limit m₁ fuel acc1 rest t newPartial) b p)
            (calcEntry limit st b p t) =
          b.enum.foldl
            (calcStep (fun acc1 rest newPartial => calculate limit m₂ fuel acc1 rest t newPartial) b p)
            (calcEntry limit st b p t) := by
        apply List.foldl_ext
        intro acc pair hp
        exact calcStep_congr _ _ b p (fun st2 rest np => ih st2 rest t np) acc pair
      rw [hfold]
      apply fst_ite_pair

theorem foldl_calcStep_latch (limit maxCalls fuel threshold : Nat)
    (balances partialList : List Nat) (l : List (Nat × Nat)) (stD : SolverState)
    (h1 : 1 ≤ stD.callTimes) :
    1 ≤ (l.foldl
        (calcStep (fun a r np => calculate limit maxCalls fuel a r threshold np)
          balances partialList) stD).callTimes ∧
    (l.foldl
        (calcStep (fun a r np => calculate limit maxCalls fuel a r threshold np)
          balances partialList) stD).sizeOfBalances = stD.sizeOfBalances := by
  refine foldl_invariant
    (fun x => 1 ≤ x.callTimes ∧ x.sizeOfBalances = stD.sizeOfBalances) _ ?_ l stD ⟨h1, rfl⟩
  intro a pair ha
  have hev := calcStep_evolves _ balances partialList
    (fun st2 rest np => calculate_evolves limit maxCalls fuel st2 rest threshold np) a pair
  obtain ⟨-, -, hct, hsz⟩ := hev
  exact ⟨Nat.le_trans ha.1 hct, (hsz ha.1).trans ha.2⟩

/-- Iterating the loop over a non-empty top-level balance list always ends
with one of the two found flags set: either an exact match was found, or the
loop reaches the last top-level index and sets `hasFoundNoMatches`. -/
theorem foldl_calcStep_flagged (limit maxCalls fuel threshold : Nat)
    (balances partialList : List Nat) (stD : SolverState)
    (h1 : 1 ≤ stD.callTimes) (hsz : stD.sizeOfBalances = balances.length)
    (hne : balances ≠ []) :
    (balances.enum.foldl
        (calcStep (fun a r np => calculate limit maxCalls fuel a r threshold np)
          balances partialList) stD).hasFoundAnExactMatch = true ∨
    (balances.enum.foldl
        (calcStep (fun a r np => calculate limit maxCalls fuel a r threshold np)
          balances partialList) stD).hasFoundNoMatches = true := by
  obtain ⟨ys, z, hcat⟩ : ∃ ys z, balances = ys ++ [z] := by
    rcases List.eq_nil_or_concat balances with h | ⟨L, b, h⟩
    · exact absurd h hne
    · exact ⟨L, b, by simpa [List.concat_eq_append] using h⟩
  subst hcat
  have henum : (ys ++ [z]).enum = ys.enum ++ [(ys.length, z)] := by
    rw [List.enum_append]
    simp [List.enumFrom]
  rw [henum, List.foldl_append]
  set mid := ys.enum.foldl
    (calcStep (fun a r np => calculate limit maxCalls fuel a r threshold np)
      (ys ++ [z]) partialList) stD with hmid
  obtain ⟨hmid_ct, hmid_sz⟩ :=
    foldl_calcStep_latch limit maxCalls fuel threshold (ys ++ [z]) partialList ys.enum stD h1
  rw [← hmid] at hmid_ct hmid_sz
  simp only [List.foldl_cons, List.foldl_nil]
  by_cases hm : mid.hasFoundAnExactMatch = true
  · left
    simp [calcStep, hm]
  · right
    have hidx : ys.length + 1 = mid.sizeOfBalances := by
      rw [hmid_sz, hsz]
      simp
    simp only [calcStep]
    rw [if_neg hm, if_pos hidx]
    have hev := calculate_evolves limit maxCalls fuel
      { mid with hasFoundNoMatches := true } (List.drop (ys.length + 1) (ys ++ [z]))
      threshold (partialList ++ [z])
    exact hev.2.1 rfl

theorem calcEntry_init (limit : Nat) (balances : List Nat) (threshold : Nat)
    (ht : 0 < threshold) :
    calcEntry limit initSolverState balances [] threshold =
      { hasFoundAnExactMatch := false
        hasFoundNoMatches := false
        exactMatches := []
        exceeded := []
        callTimes := 1
        sizeOfBalances := balances.length } := by
  have h1 : ¬(0 = threshold) := by omega
  have h2 : ¬(threshold < 0) := by omega
  simp [calcEntry, initSolverState, partialSum, h1, h2]

/-- The outermost call of the search on a non-empty balance list and a
positive threshold returns a defined record. -/
theorem calculate_top_isSome (limit maxCalls fuel : Nat) (balances : List Nat)
    (threshold : Nat) (hne : balances ≠ []) (ht : 0 < threshold) :
    ∃ r, (calculate limit maxCalls (fuel + 1) initSolverState balances threshold []).2 = some r := by
  simp only [calculate]
  have hs : ¬(threshold ≤ partialSum []) := by
    simp only [partialSum, List.foldl_nil]
    omega
  rw [if_neg hs, calcEntry_init limit balances threshold ht]
  rcases foldl_calcStep_flagged limit maxCalls fuel threshold balances []
      { hasFoundAnExactMatch := false
        hasFoundNoMatches := false
        exactMatches := []
        exceeded := []
        callTimes := 1
        sizeOfBalances := balances.length }
      (by simp) (by simp) hne with hE | hE
  · exact ⟨_, by rw [if_pos (Or.inl hE)]⟩
  · exact ⟨_, by rw [if_pos (Or.inr (Or.inl hE))]⟩

theorem subsetSumWithLimit_isSome (limit maxCalls : Nat) (balances : List Nat)
    (threshold : Nat) (hne : balances ≠ []) (ht : 0 < threshold) :
    ∃ r, subsetSumWithLimit limit maxCalls balances threshold = some r := by
  unfold subsetSumWithLimit
  exact calculate_top_isSome limit maxCalls balances.length balances threshold hne ht

theorem subsetSumWithLimit_nil (limit threshold : Nat) (ht : 0 < threshold) :
    subsetSumWithLimit limit 100000 [] threshold = none := by
  have h1 : ¬(0 = threshold) := by omega
  have h2 : ¬(threshold < 0) := by omega
  have hs : ¬(threshold ≤ partialSum ([] : List Nat)) := by
    simp only [partialSum, List.foldl_nil]
    omega
  simp [subsetSumWithLimit, calculate, calcEntry, initSolverState, partialSum, h1, h2, hs]

/-! ## Path analysis of prepareInputs -/

theorem prepareInputsFromSolver_ok_ge (u : List Input) (threshold lim : Nat)
    (o : Option SubsetSumResult) (r : PrepareResult)
    (h : prepareInputsFromSolver u threshold lim o = .ok r) :
    threshold ≤ r.balance := by
  cases o with
  | none => exact absurd h (by simp [prepareInputsFromSolver])
  | some res =>
    simp only [prepareInputsFromSolver] at h
    split at h
    · split at h
      · exact absurd h (by simp)
      · rename_i hbal
        simp only [Except.ok.injEq] at h
        subst h
        simp only [Decidable.not_not] at hbal
        exact Nat.le_of_eq hbal.symm
    · split at h
      · exact absurd h (by simp)
      · split at h
        · exact absurd h (by simp)
        · rename_i hcond
          simp only [Except.ok.injEq] at h
          subst h
          push_neg at hcond
          exact Nat.le_of_lt hcond.1

theorem prepareInputsFromSolver_inputs_sublist (u : List Input) (threshold lim : Nat)
    (o : Option SubsetSumResult) (r : PrepareResult)
    (h : prepareInputsFromSolver u threshold lim o = .ok r) :
    r.inputs.Sublist u := by
  cases o with
  | none => exact absurd h (by simp [prepareInputsFromSolver])
  | some res =>
    simp only [prepareInputsFromSolver] at h
    split at h
    · split at h
      · exact absurd h (by simp)
      · simp only [Except.ok.injEq] at h
        subst h
        exact List.filter_sublist u
    · split at h
      · exact absurd h (by simp)
      · split at h
        · exact absurd h (by simp)
        · simp only [Except.ok.injEq] at h
          subst h
          exact List.filter_sublist u

theorem prepareInputsFromSolver_some_no_typeError (u : List Input) (threshold lim : Nat)
    (res : SubsetSumResult) :
    prepareInputsFromSolver u threshold lim (some res) ≠ .error .typeErrorDestructuring := by
  simp only [prepareInputsFromSolver]
  intro hc
  split at hc
  · split at hc
    · simp at hc
    · simp at hc
  · split at hc
    · simp at hc
    · split at hc
      · simp at hc
      · simp at hc

/-- Whenever either revision's selection succeeds, the returned balance
reached the threshold: the greedy loop only stops at or above it, the
exact-match branch insists on equality, and the minimal-size branch insists
on strict excess. -/
theorem prepareInputs_ok_ge (addressData : List Input) (threshold maxInputs : Nat)
    (r : PrepareResult) (h : prepareInputs addressData threshold maxInputs = .ok r) :
    threshold ≤ r.balance := by
  simp only [prepareInputs] at h
  split at h
  · exact absurd h (by simp)
  · split at h
    · exact absurd h (by simp)
    · split at h
      · exact absurd h (by simp)
      · rename_i sel bal hgreedy
        split at h
        · simp only [prepareInputsFallback] at h
          exact prepareInputsFromSolver_ok_ge _ _ _ _ _ h
        · simp only [Except.ok.injEq] at h
          subst h
          exact greedyLoop_ok_ge _ _ _ _ _ _ _ hgreedy

/-- No address is selected twice: a successful selection of the first
revision has pairwise-distinct addresses whenever the address pool does. -/
theorem prepareInputs_nodup (addressData : List Input) (threshold maxInputs : Nat)
    (r : PrepareResult)
    (hnd : (addressData.map (fun i => i.address)).Nodup)
    (h : prepareInputs addressData threshold maxInputs = .ok r) :
    (r.inputs.map (fun i => i.address)).Nodup := by
  have hnd_inputs :
      (((transformAddressDataToInputs addressData).filter
        (fun i => decide (0 < i.balance))).map (fun i => i.address)).Nodup :=
    List.Nodup.sublist ((List.filter_sublist _).map _) hnd
  simp only [prepareInputs] at h
  split at h
  · exact absurd h (by simp)
  · split at h
    · exact absurd h (by simp)
    · split at h
      · exact absurd h (by simp)
      · rename_i sel bal hgreedy
        split at h
        · simp only [prepareInputsFallback] at h
          have hsub := prepareInputsFromSolver_inputs_sublist _ _ _ _ _ h
          have hsub2 := hsub.trans (uniqByBalance_sublist _)
          exact List.Nodup.sublist (hsub2.map _) hnd_inputs
        · simp only [Except.ok.injEq] at h
          subst h
          exact (greedyLoop_structure _ _ _ _ _ _ _ hgreedy).1 (by simp)

/-- The destructuring of the subset-sum result inside the fallback of the
first revision can never face an `undefined`: whenever the fallback runs,
the greedy selection was non-empty, hence the deduplicated balance list is
non-empty and the threshold positive, so the solver returns a record. -/
theorem prepareInputs_no_typeErrorDestructuring (addressData : List Input)
    (threshold maxInputs : Nat) :
    prepareInputs addressData threshold maxInputs ≠ .error .typeErrorDestructuring := by
  simp only [prepareInputs]
  split
  · intro hc; exact absurd hc (by simp)
  · split
    · intro hc; exact absurd hc (by simp)
    · rename_i hthr
      split
      · intro hc; exact absurd hc (by simp)
      · rename_i sel bal hgreedy
        split
        · rename_i hguard
          simp only [prepareInputsFallback]
          have hsel_ne : sel ≠ [] := by
            intro hceq
            subst hceq
            simp only [List.length_nil] at hguard
            omega
          obtain ⟨x, hx⟩ := List.exists_mem_of_ne_nil sel hsel_ne
          have hx_inputs := ((greedyLoop_structure _ _ _ _ _ _ _ hgreedy).2 x hx).resolve_left
            (by simp)
          have hinputs_ne :
              (transformAddressDataToInputs addressData).filter
                (fun i => decide (0 < i.balance)) ≠ [] := by
            intro hceq
            rw [hceq] at hx_inputs
            cases hx_inputs
          obtain ⟨y, ys, hys⟩ := List.exists_cons_of_ne_nil hinputs_ne
          rw [hys]
          obtain ⟨res, hres⟩ := subsetSumWithLimit_isSome maxInputs 100000
            ((uniqByBalance (y :: ys)).map (fun i => i.balance)) threshold
            (by
              simp only [ne_eq, List.map_eq_nil_iff]
              exact uniqByBalance_ne_nil y ys)
            (by omega)
          rw [hres]
          exact prepareInputsFromSolver_some_no_typeError _ _ _ _
        · intro hc; exact absurd hc (by simp)

/-! ## The greedy pick as a leftmost argmin (refinement of the sort) -/

theorem pickBetter_assoc (k : Input → Nat) (a z w : Input) :
    pickBetter k (pickBetter k a z) w = pickBetter k a (pickBetter k z w) := by
  unfold pickBetter
  split_ifs <;> first | rfl | omega

theorem foldl_pickBetter_init (k : Input → Nat) :
    ∀ (zs : List Input) (a z : Input),
      zs.foldl (pickBetter k) (pickBetter k a z) = pickBetter k a (zs.foldl (pickBetter k) z) := by
  intro zs
  induction zs with
  | nil => intro a z; rfl
  | cons w ws ih =>
    intro a z
    simp only [List.foldl_cons]
    rw [pickBetter_assoc k a z w]
    exact ih a (pickBetter k z w)

theorem leftmostMinBy_cons (k : Input → Nat) (x : Input) (xs : List Input) :
    leftmostMinBy k (x :: xs) = some (xs.foldl (pickBetter k) x) := by
  suffices hgen : ∀ (l : List Input) (a : Input),
      l.foldl
        (fun acc i =>
          match acc with
          | none => some i
          | some m => some (pickBetter k m i))
        (some a) = some (l.foldl (pickBetter k) a) by
    simp only [leftmostMinBy, List.foldl_cons]
    exact hgen xs x
  intro l
  induction l with
  | nil => intro a; rfl
  | cons w ws ih => intro a; simp only [List.foldl_cons]; exact ih (pickBetter k a w)

/-- The head of the stable sort by `optimalKey` is the leftmost minimizer of
that key: the first candidate the greedy pass takes is exactly the one the
specification describes. -/
theorem head_sortInputsByOptimalValue (l : List Input) (diff : Int) :
    (sortInputsByOptimalValue l diff).head? = leftmostMinBy (optimalKey diff) l := by
  induction l with
  | nil => rfl
  | cons x xs ih =>
    cases xs with
    | nil => rfl
    | cons z zs =>
      have hne : sortInputsByOptimalValue (z :: zs) diff ≠ [] := by
        intro hc
        have hpnil : (z :: zs).Perm ([] : List Input) :=
          hc ▸ (sortInputsByOptimalValue_perm (z :: zs) diff).symm
        exact absurd hpnil.eq_nil (by simp)
      obtain ⟨y, ys, hxs⟩ := List.exists_cons_of_ne_nil hne
      rw [hxs] at ih
      simp only [List.head?_cons] at ih
      simp only [sortInputsByOptimalValue, List.foldr_cons]
      have hsort_tail : (z :: zs).foldr (insertByOptimalValue diff) [] = y :: ys := by
        simpa [sortInputsByOptimalValue] using hxs
      simp only [List.foldr_cons] at hsort_tail
      rw [hsort_tail]
      rw [leftmostMinBy_cons] at ih ⊢
      simp only [List.foldl_cons]
      have hinit := foldl_pickBetter_init (optimalKey diff) zs x z
      rw [hinit]
      have hy : zs.foldl (pickBetter (optimalKey diff)) z = y := by
        have := ih
        simp only [leftmostMinBy_cons, Option.some.injEq] at this
        exact this.symm
      rw [hy]
      simp only [insertByOptimalValue, pickBetter]
      split
      · simp
      · simp

/-- The source's greedy loop (stable sort, then head) computes exactly the
specification's greedy loop (leftmost input minimizing the distance to the
remaining deficit, ties broken by pool order, until the threshold is
reached). -/
theorem greedyLoop_eq_specGreedyLoop (inputs : List Input) (threshold : Nat) :
    ∀ fuel selected bal,
      greedyLoop inputs threshold fuel selected bal =
      specGreedyLoop inputs threshold fuel selected bal := by
  intro fuel
  induction fuel with
  | zero => intro selected bal; rfl
  | succ fuel ih =>
    intro selected bal
    simp only [greedyLoop, specGreedyLoop]
    by_cases hbal : bal < threshold
    · rw [if_pos hbal, if_pos hbal]
      have hlm := head_sortInputsByOptimalValue (differenceByAddress inputs selected)
        ((threshold : Int) - (bal : Int))
      cases hs : sortInputsByOptimalValue (differenceByAddress inputs selected)
          ((threshold : Int) - (bal : Int)) with
      | nil =>
        rw [hs] at hlm
        simp only [List.head?_nil] at hlm
        rw [← hlm]
      | cons i rest =>
        rw [hs] at hlm
        simp only [List.head?_cons] at hlm
        rw [← hlm]
        exact ih (selected ++ [i]) (bal + i.balance)
    · rw [if_neg hbal, if_neg hbal]

/-- With the limit disabled (`maxInputs = 0` in the first revision), a pool
with pairwise-distinct addresses, positive threshold, and enough total
balance always succeeds with the greedy selection, whatever its size: the
fallback guard `maxInputs > 0 && size(selected) > maxInputs` can never hold. -/
theorem prepareInputs_zero_limit_greedy (addressData : List Input) (threshold : Nat)
    (hnd : (addressData.map (fun i => i.address)).Nodup)
    (hsum : threshold ≤ sumBalances addressData)
    (ht : 0 < threshold) :
    ∃ sel bal,
      greedyLoop
        ((transformAddressDataToInputs addressData).filter (fun i => decide (0 < i.balance)))
        threshold
        (((transformAddressDataToInputs addressData).filter
          (fun i => decide (0 < i.balance))).length + 1)
        [] 0 = some (sel, bal) ∧
      prepareInputs addressData threshold 0 = .ok ⟨sel, bal⟩ := by
  have hnd_inputs :
      (((transformAddressDataToInputs addressData).filter
        (fun i => decide (0 < i.balance))).map (fun i => i.address)).Nodup :=
    List.Nodup.sublist ((List.filter_sublist _).map _) hnd
  have hsum_eq :
      sumBalances ((transformAddressDataToInputs addressData).filter
        (fun i => decide (0 < i.balance))) = sumBalances addressData :=
    sumBalances_filter_pos addressData
  obtain ⟨sel, bal, hloop⟩ := greedyLoop_total
    ((transformAddressDataToInputs addressData).filter (fun i => decide (0 < i.balance)))
    threshold hnd_inputs
    (((transformAddressDataToInputs addressData).filter
      (fun i => decide (0 < i.balance))).length + 1)
    [] 0
    (by rw [differenceByAddress_nil]; omega)
    (by rw [differenceByAddress_nil]; omega)
  refine ⟨sel, bal, hloop, ?_⟩
  simp only [prepareInputs]
  rw [if_neg (by omega), if_neg (by omega), hloop]
  simp

/-! ## Concrete hashes used by the node-sync scenarios -/

/-- The 81-character hash `'U'.repeat(81)` used by the sync tests. -/
def uHash : String := String.mk (List.replicate 81 (Char.ofNat 85))

/-- The 81-character hash `'A'.repeat(81)` used by the sync tests. -/
def aHash : String := String.mk (List.replicate 81 (Char.ofNat 65))

/-! ## The claims -/

/-- C1 (corrected), counterexample to the claim as stated: on the pool
`A:5, B:4, C:4` with threshold 6 and limit 2, `prepareInputs` succeeds with
`[A, B]` and balance 9, no subset of the balances sums exactly to 6, yet the
subset `[4, 4]` stays within the limit and reaches the threshold with the
strictly smaller overshoot 8 — so the selected sum is not the smallest
achievable overshoot even though no exact match exists. -/
theorem C1_counterexample :
    prepareInputs [⟨"A", 5⟩, ⟨"B", 4⟩, ⟨"C", 4⟩] 6 2 =
      .ok ⟨[⟨"A", 5⟩, ⟨"B", 4⟩], 9⟩ ∧
    ([⟨"A", 5⟩, ⟨"B", 4⟩, ⟨"C", 4⟩] : List Input).map (fun i => i.balance) = [5, 4, 4] ∧
    (∀ s ∈ ([5, 4, 4] : List Nat).sublists, s.sum ≠ 6) ∧
    ([4, 4] : List Nat).Sublist [5, 4, 4] ∧
    ([4, 4] : List Nat).sum = 8 ∧ ([4, 4] : List Nat).length ≤ 2 ∧
    6 ≤ 8 ∧ 8 < 9 :=
  ⟨by rfl, by rfl, by decide, by decide, by rfl, by decide, by decide, by decide⟩

/-- C1 (corrected), amended: whenever `prepareInputs` succeeds, the sum of
the selected balances is at least the threshold; minimality of the
overshoot, however, is not guaranteed (see the counterexample). -/
theorem C1_amended_sum_reaches_threshold (addressData : List Input)
    (threshold maxInputs : Nat) (r : PrepareResult)
    (h : prepareInputs addressData threshold maxInputs = .ok r) :
    threshold ≤ r.balance :=
  prepareInputs_ok_ge addressData threshold maxInputs r h

/-- Witness for C1: the amended theorem applied to a concrete pool. -/
theorem C1_witness :
    prepareInputs [⟨"A", 5⟩, ⟨"B", 4⟩, ⟨"C", 4⟩] 6 2 = .ok ⟨[⟨"A", 5⟩, ⟨"B", 4⟩], 9⟩ ∧
    6 ≤ (⟨[⟨"A", 5⟩, ⟨"B", 4⟩], 9⟩ : PrepareResult).balance :=
  ⟨by rfl,
    C1_amended_sum_reaches_threshold [⟨"A", 5⟩, ⟨"B", 4⟩, ⟨"C", 4⟩] 6 2
      ⟨[⟨"A", 5⟩, ⟨"B", 4⟩], 9⟩ (by rfl)⟩

/-- C2 (corrected), counterexample to the claim as stated: in the second
revision of `prepareInputs` a limit of 0 does not mean unlimited — even with
total balance 5 ≥ threshold 3 and a positive threshold the call raises the
limit-related error `INPUTS_LIMIT_CANNOT_BE_ZERO`. -/
theorem C2_counterexample :
    3 ≤ sumBalances [⟨"A", 5⟩] ∧ 0 < 3 ∧
    prepareInputsV2 [⟨"A", 5⟩] 3 (some 0) = .error .inputsLimitCannotBeZero :=
  ⟨by decide, by decide, by rfl⟩

/-- C2 (corrected), amended: in the first revision (`maxInputs` parameter) a
limit of 0 does disable the cap — with pairwise-distinct addresses, positive
threshold and sufficient total balance, the call succeeds with the greedy
selection regardless of its size and never raises a limit-related error; in
the second revision (`limit` parameter) an absent (`null`) limit means
unlimited, but a limit of 0 itself is rejected with
`INPUTS_LIMIT_CANNOT_BE_ZERO`. -/
theorem C2_amended_zero_limit (addressData : List Input) (threshold : Nat)
    (hnd : (addressData.map (fun i => i.address)).Nodup)
    (hsum : threshold ≤ sumBalances addressData)
    (ht : 0 < threshold) :
    (∃ sel bal,
      greedyLoop
        ((transformAddressDataToInputs addressData).filter (fun i => decide (0 < i.balance)))
        threshold
        (((transformAddressDataToInputs addressData).filter
          (fun i => decide (0 < i.balance))).length + 1)
        [] 0 = some (sel, bal) ∧
      prepareInputs addressData threshold 0 = .ok ⟨sel, bal⟩) ∧
    prepareInputsV2 addressData threshold (some 0) = .error .inputsLimitCannotBeZero := by
  constructor
  · exact prepareInputs_zero_limit_greedy addressData threshold hnd hsum ht
  · simp only [prepareInputsV2]
    rw [if_neg (by omega), if_neg (by omega)]
    simp

/-- Witness for C2: the amended theorem applied to the pool
`A:1, B:1, C:1` with threshold 3, where the greedy selection has size 3. -/
theorem C2_witness :
    ((∃ sel bal,
      greedyLoop
        ((transformAddressDataToInputs [⟨"A", 1⟩, ⟨"B", 1⟩, ⟨"C", 1⟩]).filter
          (fun i => decide (0 < i.balance)))
        3
        (((transformAddressDataToInputs [⟨"A", 1⟩, ⟨"B", 1⟩, ⟨"C", 1⟩]).filter
          (fun i => decide (0 < i.balance))).length + 1)
        [] 0 = some (sel, bal) ∧
      prepareInputs [⟨"A", 1⟩, ⟨"B", 1⟩, ⟨"C", 1⟩] 3 0 = .ok ⟨sel, bal⟩) ∧
    prepareInputsV2 [⟨"A", 1⟩, ⟨"B", 1⟩, ⟨"C", 1⟩] 3 (some 0) =
      .error .inputsLimitCannotBeZero) ∧
    prepareInputs [⟨"A", 1⟩, ⟨"B", 1⟩, ⟨"C", 1⟩] 3 0 =
      .ok ⟨[⟨"A", 1⟩, ⟨"B", 1⟩, ⟨"C", 1⟩], 3⟩ :=
  ⟨C2_amended_zero_limit [⟨"A", 1⟩, ⟨"B", 1⟩, ⟨"C", 1⟩] 3 (by decide) (by decide) (by decide),
    by rfl⟩

/-- C3 (confirmed): for five eligible inputs of balance 1, threshold 3 and
limit 2, the greedy pass selects three inputs, the deduplicated pool
collapses to the single balance `[1]`, the solver finds neither exact nor
exceeding combinations, and `prepareInputs` fails with
`CANNOT_FIND_INPUTS_WITH_PROVIDED_LIMIT`. -/
theorem C3_cannot_meet_limit :
    greedyLoop
      ((transformAddressDataToInputs
        [⟨"A", 1⟩, ⟨"B", 1⟩, ⟨"C", 1⟩, ⟨"D", 1⟩, ⟨"E", 1⟩]).filter
        (fun i => decide (0 < i.balance)))
      3
      (((transformAddressDataToInputs
        [⟨"A", 1⟩, ⟨"B", 1⟩, ⟨"C", 1⟩, ⟨"D", 1⟩, ⟨"E", 1⟩]).filter
        (fun i => decide (0 < i.balance))).length + 1)
      [] 0 = some ([⟨"A", 1⟩, ⟨"B", 1⟩, ⟨"C", 1⟩], 3) ∧
    uniqByBalance
      ((transformAddressDataToInputs
        [⟨"A", 1⟩, ⟨"B", 1⟩, ⟨"C", 1⟩, ⟨"D", 1⟩, ⟨"E", 1⟩]).filter
        (fun i => decide (0 < i.balance))) = [⟨"A", 1⟩] ∧
    subsetSumWithLimit 2 100000 [1] 3 = some ⟨[], []⟩ ∧
    prepareInputs [⟨"A", 1⟩, ⟨"B", 1⟩, ⟨"C", 1⟩, ⟨"D", 1⟩, ⟨"E", 1⟩] 3 2 =
      .error .cannotFindInputsWithProvidedLimit :=
  ⟨by rfl, by rfl, by rfl, by rfl⟩

/-- C4 (corrected), counterexample to the claim as stated: with
`maxCalls = 2` on the balances `[1, 1]` and threshold 5, the search makes 4
calls in total — recursive calls continue after the counter has reached
`maxCalls`, so the cap does not bound the number of calls. -/
theorem C4_counterexample :
    (calculate 2 2 (([1, 1] : List Nat).length + 1) initSolverState [1, 1] 5 []).1.callTimes
      = 4 ∧
    ¬((calculate 2 2 (([1, 1] : List Nat).length + 1) initSolverState [1, 1] 5
        []).1.callTimes ≤ 2) := by
  constructor
  · decide
  · decide

/-- C4 (corrected), amended: the call counter never stops the recursion —
the entire search state (call count, flags and both accumulators) is
independent of `maxCalls`; the counter is consulted only by the end-of-call
condition deciding whether a call hands back the result record (where it is
compared for exact equality).  The search itself stops only on an exact
match or on exhaustion of all branches. -/
theorem C4_amended_cap_never_stops_recursion (limit m₁ m₂ fuel : Nat)
    (st : SolverState) (balances : List Nat) (threshold : Nat) (partialList : List Nat) :
    (calculate limit m₁ fuel st balances threshold partialList).1 =
    (calculate limit m₂ fuel st balances threshold partialList).1 :=
  calculate_fst_maxCalls_indep limit m₁ m₂ fuel st balances threshold partialList

/-- C5 (confirmed): on the ordered balances `[10, 20, 30]` with threshold 30
and the default limit 2, the strict left-to-right depth-first search records
exactly the single exact match `[10, 20]` (never reaching the equally exact
`[30]`) and no exceeding combinations. -/
theorem C5_first_exact_match :
    subsetSumWithLimit 2 100000 [10, 20, 30] 30 = some ⟨[[10, 20]], []⟩ := by
  decide

/-- C6 (confirmed): the greedy pass of `prepareInputs` — a stable sort of
the not-yet-selected inputs by `|remaining − balance|` followed by taking
the head — picks in every iteration exactly the first input minimizing the
absolute difference to the remaining deficit (ties broken by pool order),
adds it, updates the deficit, and iterates precisely until the accumulated
balance reaches the threshold: it coincides with the specification's
leftmost-argmin loop. -/
theorem C6_greedy_is_leftmost_argmin (inputs : List Input) (threshold fuel : Nat)
    (selected : List Input) (bal : Nat) :
    greedyLoop inputs threshold fuel selected bal =
    specGreedyLoop inputs threshold fuel selected bal :=
  greedyLoop_eq_specGreedyLoop inputs threshold fuel selected bal

/-- C7 (confirmed): `getInputs` applies its three filter stages in the fixed
order pending-incoming, pending-outgoing, spent, re-summing after each stage
and failing fast with the stage-specific error as soon as the remaining
balance drops below the threshold; a later stage's error is never raised
when an earlier stage fails, and when all stages pass the filtered pool is
handed to `prepareInputs`.  Stated for both revisions, with the filter
stages abstracted as functions of the pool. -/
theorem C7_stage_order (f1 f2 f3 : List Input → List Input)
    (addressData : List Input) (threshold maxInputs : Nat) (maxInputsV2 : Option Nat) :
    (sumBalances addressData < threshold →
      getInputs f1 f2 f3 addressData threshold maxInputs = .error .insufficientBalance) ∧
    (threshold ≤ sumBalances addressData →
      sumBalances (f1 addressData) < threshold →
      getInputs f1 f2 f3 addressData threshold maxInputs = .error .incomingTransfers) ∧
    (threshold ≤ sumBalances addressData →
      threshold ≤ sumBalances (f1 addressData) →
      sumBalances (f2 (f1 addressData)) < threshold →
      getInputs f1 f2 f3 addressData threshold maxInputs = .error .addressHasPendingTransfers) ∧
    (threshold ≤ sumBalances addressData →
      threshold ≤ sumBalances (f1 addressData) →
      threshold ≤ sumBalances (f2 (f1 addressData)) →
      sumBalances (f3 (f2 (f1 addressData))) < threshold →
      getInputs f1 f2 f3 addressData threshold maxInputs = .error .fundsAtSpentAddresses) ∧
    (threshold ≤ sumBalances addressData →
      threshold ≤ sumBalances (f1 addressData) →
      threshold ≤ sumBalances (f2 (f1 addressData)) →
      threshold ≤ sumBalances (f3 (f2 (f1 addressData))) →
      getInputs f1 f2 f3 addressData threshold maxInputs =
        prepareInputs (f3 (f2 (f1 addressData))) threshold maxInputs) ∧
    (sumBalances addressData < threshold →
      getInputsV2 f1 f2 f3 addressData threshold maxInputsV2 = .error .insufficientBalance) ∧
    (threshold ≤ sumBalances addressData →
      sumBalances (f1 addressData) < threshold →
      getInputsV2 f1 f2 f3 addressData threshold maxInputsV2 = .error .incomingTransfers) ∧
    (threshold ≤ sumBalances addressData →
      threshold ≤ sumBalances (f1 addressData) →
      sumBalances (f2 (f1 addressData)) < threshold →
      getInputsV2 f1 f2 f3 addressData threshold maxInputsV2 =
        .error .addressHasPendingTransfers) ∧
    (threshold ≤ sumBalances addressData →
      threshold ≤ sumBalances (f1 addressData) →
      threshold ≤ sumBalances (f2 (f1 addressData)) →
      sumBalances (f3 (f2 (f1 addressData))) < threshold →
      getInputsV2 f1 f2 f3 addressData threshold maxInputsV2 =
        .error .fundsAtSpentAddresses) ∧
    (threshold ≤ sumBalances addressData →
      threshold ≤ sumBalances (f1 addressData) →
      threshold ≤ sumBalances (f2 (f1 addressData)) →
      threshold ≤ sumBalances (f3 (f2 (f1 addressData))) →
      getInputsV2 f1 f2 f3 addressData threshold maxInputsV2 =
        prepareInputsV2 (f3 (f2 (f1 addressData))) threshold maxInputsV2) := by
  refine ⟨?_, ?_, ?_, ?_, ?_, ?_, ?_, ?_, ?_, ?_⟩ <;>
    intros <;>
    simp only [getInputs, getInputsV2] <;>
    (repeat rw [if_neg (by omega)]) <;>
    rw [if_pos (by omega)]

/-- Witness for C7: the incoming-transfers stage fails on a concrete pool
when the first filter removes everything. -/
theorem C7_witness :
    getInputs (fun _ => []) (fun l => l) (fun l => l) [⟨"A", 5⟩] 3 0 =
      .error .incomingTransfers :=
  (C7_stage_order (fun _ => []) (fun l => l) (fun l => l) [⟨"A", 5⟩] 3 0 none).2.1
    (by decide) (by decide)

/-- C8 (corrected), counterexample to the claim as stated: with differing
milestone hashes (`U…U` vs `A…A`) and an index difference of exactly 1, the
sync check does not reject — it resolves `false` for a stale sampled
timestamp (this is the scenario of the in-repo test at
`extendedApi.spec.js`, "latestSolidSubtangleMilestoneIndex is 1 less than
latestMilestoneIndex"). -/
theorem C8_counterexample :
    uHash ≠ aHash ∧
    isNodeSynced ⟨uHash, aHash, some 426550, some 426549⟩ 0 1000000000 = .ok false ∧
    (Except.ok false : Except Err Bool) ≠ .error .nodeNotSynced := by
  refine ⟨by decide, by rfl, fun h => Except.noConfusion h⟩

/-- C8 (corrected), amended: the sync check rejects with `Node not synced`
exactly when its guard fails — that is, when `latestMilestone` is the all-9s
sentinel (even if both hashes agree), or when the hashes differ and the
milestone index difference is not exactly 1.  When `latestMilestone` is not
the sentinel and the hashes agree or the index difference is exactly 1, it
resolves with the freshness verdict: `true` iff the sampled transaction's
timestamp is within 5 minutes of now.  The four scenarios of the in-repo
test suite are reproduced. -/
theorem C8_amended_sync_characterisation :
    (∀ (info : NodeInfo) (ts now : Int),
      (((info.latestMilestone == info.latestSolidSubtangleMilestone) || indexDiffIsOne info)
        && (info.latestMilestone != EMPTY_HASH_TRYTES)) = true →
      isNodeSynced info ts now = .ok (isWithinMinutes (ts * 1000) 5 now)) ∧
    (∀ (info : NodeInfo) (ts now : Int),
      (((info.latestMilestone == info.latestSolidSubtangleMilestone) || indexDiffIsOne info)
        && (info.latestMilestone != EMPTY_HASH_TRYTES)) = false →
      isNodeSynced info ts now = .error .nodeNotSynced) ∧
    (∀ ts now : Int,
      isNodeSynced ⟨EMPTY_HASH_TRYTES, uHash, none, none⟩ ts now = .error .nodeNotSynced) ∧
    (∀ ts now : Int,
      isNodeSynced ⟨EMPTY_HASH_TRYTES, EMPTY_HASH_TRYTES, none, none⟩ ts now =
        .error .nodeNotSynced) ∧
    isNodeSynced ⟨uHash, aHash, some 426550, some 426549⟩ 60 300000 = .ok true ∧
    isNodeSynced ⟨uHash, aHash, some 426550, some 426549⟩ 0 300001 = .ok false ∧
    isNodeSynced ⟨uHash, uHash, none, none⟩ 60 300000 = .ok true ∧
    isNodeSynced ⟨uHash, uHash, none, none⟩ 0 300001 = .ok false := by
  refine ⟨?_, ?_, ?_, ?_, by rfl, by rfl, by rfl, by rfl⟩
  · intro info ts now hcond
    simp only [isNodeSynced, hcond, if_pos]
  · intro info ts now hcond
    simp only [isNodeSynced, hcond]
    simp
  · intro ts now
    simp only [isNodeSynced]
    rw [if_neg (by decide)]
  · intro ts now
    simp only [isNodeSynced]
    rw [if_neg (by decide)]

/-- Witness for C8: the amended characterisation applied at the agreeing
non-sentinel hashes of the fourth test scenario. -/
theorem C8_witness :
    isNodeSynced ⟨uHash, uHash, none, none⟩ 60 300000 =
      .ok (isWithinMinutes (60 * 1000) 5 300000) :=
  C8_amended_sync_characterisation.1 ⟨uHash, uHash, none, none⟩ 60 300000 (by decide)

/-- C9 (confirmed): no address appears twice in a selection returned by
`prepareInputs` — with the pool keyed by address (pairwise-distinct
addresses), the greedy path excludes already-selected addresses from each
iteration's candidates and the fallback path works on a sublist of the
deduplicated pool, so every returned input list has pairwise-distinct
addresses. -/
theorem C9_no_duplicate_addresses (addressData : List Input)
    (threshold maxInputs : Nat) (r : PrepareResult)
    (hnd : (addressData.map (fun i => i.address)).Nodup)
    (h : prepareInputs addressData threshold maxInputs = .ok r) :
    (r.inputs.map (fun i => i.address)).Nodup :=
  prepareInputs_nodup addressData threshold maxInputs r hnd h

/-- Witness for C9: the theorem applied to a concrete pool. -/
theorem C9_witness :
    (([⟨"A", 5⟩, ⟨"B", 4⟩] : List Input).map (fun i => i.address)).Nodup :=
  C9_no_duplicate_addresses [⟨"A", 5⟩, ⟨"B", 4⟩, ⟨"C", 4⟩] 6 2
    ⟨[⟨"A", 5⟩, ⟨"B", 4⟩], 9⟩ (by decide) (by rfl)

/-- C10 (confirmed): for every non-empty balance list, limit of at least 1
and positive threshold, the outermost call of the search returns a defined
`{exactMatches, exceeded}` record; on an empty balance list (with the
default `maxCalls` of 100000) it returns `undefined`; and the destructuring
of the search result inside `prepareInputs`'s fallback can never fail,
because the fallback only runs when the greedy selection — and hence the
deduplicated candidate pool — is non-empty. -/
theorem C10_solver_result_defined :
    (∀ (balances : List Nat) (limit maxCalls threshold : Nat),
      balances ≠ [] → 1 ≤ limit → 0 < threshold →
      ∃ r, subsetSumWithLimit limit maxCalls balances threshold = some r) ∧
    (∀ (limit threshold : Nat), 0 < threshold →
      subsetSumWithLimit limit 100000 [] threshold = none) ∧
    (∀ (addressData : List Input) (threshold maxInputs : Nat),
      prepareInputs addressData threshold maxInputs ≠ .error .typeErrorDestructuring) :=
  ⟨fun balances limit maxCalls threshold hne _ ht =>
      subsetSumWithLimit_isSome limit maxCalls balances threshold hne ht,
    fun limit threshold ht => subsetSumWithLimit_nil limit threshold ht,
    fun addressData threshold maxInputs =>
      prepareInputs_no_typeErrorDestructuring addressData threshold maxInputs⟩

/-- Witness for C10: the three parts applied at concrete inputs. -/
theorem C10_witness :
    (∃ r, subsetSumWithLimit 1 1 [1] 1 = some r) ∧
    subsetSumWithLimit 1 100000 [] 1 = none ∧
    prepareInputs [⟨"A", 1⟩] 1 0 ≠ .error .typeErrorDestructuring :=
  ⟨C10_solver_result_defined.1 [1] 1 1 1 (by decide) (by decide) (by decide),
    C10_solver_result_defined.2.1 1 1 (by decide),
    C10_solver_result_defined.2.2 [⟨"A", 1⟩] 1 0⟩
